import Mathlib

/-!
Verification of the document-to-knowledge pipeline of the social-post-star
repository: text chunking (src/lib/utils/text-chunker.ts), embedding batching
and cosine similarity (src/lib/ai/embeddings.ts), the brand-voice knowledge
store queries (src/lib/db/queries/brand-voice.ts), the RAG retrieval layer
(src/lib/ai/brand-voice-rag.ts) and the ingestion orchestrator
(src/lib/ai/brand-voice-ingestion.ts).

JavaScript strings are modelled as `List Char`; cursor arithmetic of the
chunker is carried out over `Int` because the source lets the cursor go
negative (`startPos = endPos - overlap`).  External collaborators (the
embedding provider, the SQL store, the PDF reader and the file system) are
modelled as explicit oracle parameters, mirroring exactly the call sites in
the source.  The chunking loop of the source is a JavaScript `while` loop
with no a-priori termination proof, so it is modelled with an explicit fuel
parameter: `none` means the loop is still running after `fuel` iterations.
-/

namespace TextChunker

/-- Whitespace recognised by JavaScript `String.prototype.trim` (ASCII part;
the source documents are ASCII). -/
def isWS (c : Char) : Bool :=
  c = ' ' || c = '\t' || c = '\n' || c = '\r' || c = '\x0b' || c = '\x0c'

/-- JavaScript `String.prototype.trim`: strip whitespace from both ends. -/
def trimJS (l : List Char) : List Char :=
  ((l.dropWhile isWS).reverse.dropWhile isWS).reverse

/-- Does the list begin with the given pattern? -/
def beginsWith : List Char → List Char → Bool
  | _, [] => true
  | [], _ :: _ => false
  | c :: cs, p :: ps => c = p && beginsWith cs ps

/-- Scan downward from index `i` for the last occurrence of `pat`. -/
def lastIndexOfAux (seg pat : List Char) : Nat → Int
  | 0 => if beginsWith seg pat then 0 else -1
  | i + 1 =>
    if beginsWith (seg.drop (i + 1)) pat then ((i : Int) + 1)
    else lastIndexOfAux seg pat i

/-- JavaScript `String.prototype.lastIndexOf(pat, fromIndex)`: the largest
start index `k ≤ clamp(fromIndex, 0, length)` at which `pat` occurs in full,
`-1` when there is none. -/
def lastIndexOf (seg pat : List Char) (fromIndex : Int) : Int :=
  lastIndexOfAux seg pat (min (max fromIndex 0) (seg.length : Int)).toNat

/-- JavaScript `String.prototype.substring(a, b)`: both arguments are clamped
to `[0, length]` and swapped when out of order. -/
def substringJS (l : List Char) (a b : Int) : List Char :=
  let a' := (min (max a 0) (l.length : Int)).toNat
  let b' := (min (max b 0) (l.length : Int)).toNat
  (l.take (max a' b')).drop (min a' b')

/-- `text.replace(/\r\n/g, '\n')`. -/
def replaceCRLF : List Char → List Char
  | [] => []
  | [c] => [c]
  | c :: d :: rest =>
    if c = '\r' && d = '\n' then '\n' :: replaceCRLF rest
    else c :: replaceCRLF (d :: rest)

/-- Replacement for a run of `k` consecutive newlines under
`/\n{3,}/g → '\n\n'`: runs of three or more become two, shorter runs stay. -/
def emitNL (k : Nat) : List Char :=
  if k ≥ 3 then ['\n', '\n'] else List.replicate k '\n'

/-- Scan with a count of pending newlines in the current run. -/
def collapseNLAux : Nat → List Char → List Char
  | k, [] => emitNL k
  | k, c :: rest =>
    if c = '\n' then collapseNLAux (k + 1) rest
    else emitNL k ++ c :: collapseNLAux 0 rest

/-- `text.replace(/\n{3,}/g, '\n\n')`: collapse runs of three or more
newlines to exactly two. -/
def collapseNewlines (l : List Char) : List Char :=
  collapseNLAux 0 l

/-- Replacement for a run of `k` consecutive spaces/tabs under
`/[ \t]+/g → ' '`: any non-empty run becomes one space. -/
def emitSP (k : Nat) : List Char :=
  if k ≥ 1 then [' '] else []

/-- Scan with a count of pending spaces/tabs in the current run. -/
def collapseSPAux : Nat → List Char → List Char
  | k, [] => emitSP k
  | k, c :: rest =>
    if c = ' ' || c = '\t' then collapseSPAux (k + 1) rest
    else emitSP k ++ c :: collapseSPAux 0 rest

/-- `text.replace(/[ \t]+/g, ' ')`: collapse each run of spaces and tabs to a
single space. -/
def collapseSpaces (l : List Char) : List Char :=
  collapseSPAux 0 l

/-- Whitespace normalisation performed by `chunkText` when
`preserveWhitespace` is not requested. -/
def normalizeText (l : List Char) : List Char :=
  trimJS (collapseSpaces (collapseNewlines (replaceCRLF l)))

/-- `TextChunk` of text-chunker.ts (metadata is attached separately by
`chunkTextWithMetadata`). -/
structure TextChunk where
  text : List Char
  index : Nat
  startPosition : Int
  endPosition : Int
deriving DecidableEq, Repr

/-- `ChunkingOptions`; a `none` field stands for a JavaScript field left
`undefined`, which the `{ ...DEFAULT_OPTIONS, ...options }` merge replaces by
its default. -/
structure ChunkingOptions where
  chunkSize : Option Nat
  chunkOverlap : Option Nat
  separators : Option (List (List Char))
  preserveWhitespace : Option Bool
deriving Repr

/-- The options record with every field left undefined. -/
def noOptions : ChunkingOptions := ⟨none, none, none, none⟩

/-- The DEFAULT_OPTIONS separator cascade:
paragraph, line, sentence end, clause end, word boundary. -/
def defaultSeparators : List (List Char) :=
  [['\n', '\n'], ['\n'], ['.', ' '], ['!', ' '], ['?', ' '], [';', ' '],
   [',', ' '], [' ']]

/-- The separator-preference search of the chunking loop body: for the first
separator that occurs in the window around `endPos`, the cut position just
after its last occurrence no later than `endPos`. -/
def findSplit (clean : List Char) (startPos endPos : Int) :
    List (List Char) → Option Int
  | [] => none
  | sep :: rest =>
    let searchStart := max startPos (endPos - 200)
    let searchEnd := min (endPos + 100) (clean.length : Int)
    let segment := substringJS clean searchStart searchEnd
    let relativePos := lastIndexOf segment sep (endPos - searchStart)
    if relativePos ≠ -1 then some (searchStart + relativePos + (sep.length : Int))
    else findSplit clean startPos endPos rest

/-- One-iteration-at-a-time model of the `while (startPos < cleanText.length)`
loop of `chunkText`.  `fuel` bounds the number of iterations still allowed;
`none` means the loop was still running when the fuel ran out (the source has
no such bound and simply keeps running). -/
def chunkLoop (clean : List Char) (size overlap : Nat)
    (seps : List (List Char)) :
    Nat → Int → Nat → List TextChunk → Option (List TextChunk)
  | fuel, startPos, chunkIndex, chunks =>
    if startPos < (clean.length : Int) then
      match fuel with
      | 0 => none
      | fuel + 1 =>
        let endPos0 : Int := min (startPos + (size : Int)) (clean.length : Int)
        let endPos : Int :=
          if endPos0 < (clean.length : Int) then
            match findSplit clean startPos endPos0 seps with
            | some p => p
            | none => endPos0
          else endPos0
        let ctext := trimJS (substringJS clean startPos endPos)
        let chunks' :=
          if ctext.length > 0 then
            chunks ++ [⟨ctext, chunkIndex, startPos, endPos⟩]
          else chunks
        let chunkIndex' := if ctext.length > 0 then chunkIndex + 1 else chunkIndex
        let next0 := endPos - (overlap : Int)
        let next :=
          match chunks'.getLast? with
          | some c => if next0 ≤ c.startPosition then endPos else next0
          | none => next0
        chunkLoop clean size overlap seps fuel next chunkIndex' chunks'
    else some chunks

/-- `chunkText(text, options)` of text-chunker.ts, with an explicit iteration
budget `fuel`.  Returns `none` when the loop has not finished within `fuel`
iterations. -/
def chunkText (fuel : Nat) (text : List Char) (options : ChunkingOptions) :
    Option (List TextChunk) :=
  let size := options.chunkSize.getD 1000
  let overlap := options.chunkOverlap.getD 200
  let seps := options.separators.getD defaultSeparators
  let preserve := options.preserveWhitespace.getD false
  let clean := if preserve then text else normalizeText text
  if clean.length = 0 then some [] else chunkLoop clean size overlap seps fuel 0 0 []

/-- `estimateTokenCount`: `Math.ceil(text.length / 4)`. -/
def estimateTokenCount (s : String) : Nat :=
  (s.length + 3) / 4

/-- `chunkTextWithMetadata`: chunk and attach one metadata record to every
chunk (a chunk produced by `chunkText` never carries metadata of its own, so
the object merge in the source reduces to attaching `metadata`). -/
def chunkTextWithMetadata {μ : Type} (fuel : Nat) (text : List Char)
    (metadata : μ) (options : ChunkingOptions) :
    Option (List (TextChunk × μ)) :=
  (chunkText fuel text options).map (List.map (fun c => (c, metadata)))

/-- The first chunk stored by the loop on the diverging input ".\nbb" with
size 2, overlap 1: the text "." cut just after the newline separator. -/
def stuckChunk : TextChunk := ⟨['.'], 0, 0, 2⟩

end TextChunker

namespace Embeddings

/-- `EmbeddingResult` of embeddings.ts; the numeric type of vector entries is
a parameter `α` (JavaScript numbers; instantiated with `ℝ` where similarity
arithmetic matters and with discrete types in concrete runs). -/
structure EmbeddingResult (α : Type) where
  embedding : List α
  text : String
  model : String
  dimensions : Nat
deriving Repr

/-- `BatchEmbeddingResult` of embeddings.ts. -/
structure BatchEmbeddingResult (α : Type) where
  embeddings : List (EmbeddingResult α)
  totalTokens : Nat
  model : String
deriving Repr

/-- The batches cut by the loop `for (i = 0; i < texts.length; i += batchSize)`
with `texts.slice(i, i + batchSize)`.  For `batchSize = 0` the JavaScript loop
never advances (it would run forever); that case is modelled as no batches and
every claim about the batching assumes a positive batch size. -/
def toBatches (batchSize : Nat) : List String → List (List String)
  | [] => []
  | t :: ts =>
    if batchSize = 0 then []
    else (t :: ts).take batchSize :: toBatches batchSize ((t :: ts).drop batchSize)
termination_by l => l.length
decreasing_by
  simp only [List.length_drop, List.length_cons]
  omega

/-- `response.data.forEach((item, index) => ...)`: pair the provider's vectors
with the texts of the batch by position; a vector beyond the end of the batch
is paired with the empty string (JavaScript would read `batch[index]` as
`undefined`). -/
def pairEmb (modelName : String) : List (List α) → List String →
    List (EmbeddingResult α)
  | [], _ => []
  | v :: vs, [] => ⟨v, "", modelName, v.length⟩ :: pairEmb modelName vs []
  | v :: vs, t :: ts => ⟨v, t, modelName, v.length⟩ :: pairEmb modelName vs ts

/-- The body of `generateEmbeddingsBatch`'s loop over the batches: one
provider call per batch, results appended in batch order, token usage summed;
a failing call rethrows and aborts the whole run. -/
def runBatches (provider : List String → Except String (List (List α) × Nat))
    (modelName : String) :
    List (List String) → Except String (List (EmbeddingResult α) × Nat)
  | [] => .ok ([], 0)
  | b :: rest => do
    let r ← provider b
    let tail ← runBatches provider modelName rest
    .ok (pairEmb modelName r.1 b ++ tail.1, r.2 + tail.2)

/-- `generateEmbeddingsBatch(texts, model, batchSize)` of embeddings.ts, with
the OpenAI client abstracted as the oracle `provider` (one call per batch,
returning the vectors and the token usage, or throwing). -/
def generateEmbeddingsBatch
    (provider : List String → Except String (List (List α) × Nat))
    (texts : List String) (modelName : String) (batchSize : Nat) :
    Except String (BatchEmbeddingResult α) :=
  (runBatches provider modelName (toBatches batchSize texts)).map
    (fun r => ⟨r.1, r.2, modelName⟩)

/-- Dot product loop of `cosineSimilarity` (runs over equal-length vectors). -/
def dotProduct (a b : List ℝ) : ℝ :=
  (List.zipWith (fun x y => x * y) a b).sum

/-- The accumulated `magnitudeA`/`magnitudeB` sums of squares before the
square root is taken. -/
def sumSq (a : List ℝ) : ℝ :=
  (a.map (fun x => x * x)).sum

/-- `cosineSimilarity` of embeddings.ts: THROWS on a dimension mismatch, and
returns `0` when either magnitude (the square root of the sum of squares) is
zero. -/
noncomputable def cosineSimilarity (a b : List ℝ) : Except String ℝ :=
  if a.length ≠ b.length then
    .error "Embeddings must have the same dimensions"
  else
    let magnitudeA := Real.sqrt (sumSq a)
    let magnitudeB := Real.sqrt (sumSq b)
    if magnitudeA = 0 ∨ magnitudeB = 0 then .ok 0
    else .ok (dotProduct a b / (magnitudeA * magnitudeB))

end Embeddings

/-- The brand-voice source tags used by the pipeline (data model of the spec;
brand-voice-ingestion.ts assigns `style_guide`, `knowledge_base` and `other`,
brand-voice-rag.ts additionally filters on `example_post`, and the original
enum also lists `feedback`). -/
inductive BrandVoiceSource where
  | style_guide
  | example_post
  | knowledge_base
  | feedback
  | other
deriving DecidableEq, Repr

namespace BrandVoice

/-- A stored `brand_voice_embeddings` row (`BrandVoiceEmbedding` of
brand-voice.ts).  `created_at` is a timestamp; `metadata` is an opaque JSON
blob (its contents are never inspected by the query layer). -/
structure BrandVoiceEmbedding where
  id : String
  source : BrandVoiceSource
  source_file : Option String
  text : String
  embedding : List ℝ
  metadata : Option String
  created_at : Int

/-- A row together with its similarity to the query (the
`{ ...item, similarity }` spread in `findSimilarBrandVoice`). -/
structure ScoredBrandVoice where
  item : BrandVoiceEmbedding
  similarity : ℝ

/-- `cosineSimilarity` of brand-voice.ts: unlike the embeddings.ts version it
returns `0` (rather than throwing) on a dimension mismatch, and `0` when
either magnitude is zero. -/
noncomputable def cosineSimilarity (a b : List ℝ) : ℝ :=
  if a.length ≠ b.length then 0
  else
    let magnitudeA := Real.sqrt (Embeddings.sumSq a)
    let magnitudeB := Real.sqrt (Embeddings.sumSq b)
    if magnitudeA = 0 ∨ magnitudeB = 0 then 0
    else Embeddings.dotProduct a b / (magnitudeA * magnitudeB)

/-- The candidate fetch of `findSimilarBrandVoice`:
`SELECT * FROM brand_voice_embeddings` with an optional `WHERE source = $s`.
The database state is the list `db` in its fetch order (the query has no
ORDER BY). -/
def candidates (db : List BrandVoiceEmbedding)
    (source : Option BrandVoiceSource) : List BrandVoiceEmbedding :=
  match source with
  | some s => db.filter (fun r => r.source = s)
  | none => db

/-- Similarity scoring of every candidate. -/
noncomputable def scored (db : List BrandVoiceEmbedding)
    (queryEmbedding : List ℝ) (source : Option BrandVoiceSource) :
    List ScoredBrandVoice :=
  (candidates db source).map
    (fun item => ⟨item, cosineSimilarity queryEmbedding item.embedding⟩)

/-- `.filter(item => item.similarity >= minSimilarity)`. -/
noncomputable def aboveMin (db : List BrandVoiceEmbedding)
    (queryEmbedding : List ℝ) (minSimilarity : ℝ)
    (source : Option BrandVoiceSource) : List ScoredBrandVoice :=
  (scored db queryEmbedding source).filter
    (fun x => decide (minSimilarity ≤ x.similarity))

/-- The comparator `(a, b) => b.similarity - a.similarity`: `a` may precede
`b` exactly when `a.similarity ≥ b.similarity`. -/
noncomputable def simDescLe (a b : ScoredBrandVoice) : Bool :=
  decide (b.similarity ≤ a.similarity)

/-- `.sort((a, b) => b.similarity - a.similarity)`: Array.prototype.sort is
stable (ECMA-262, 23.1.3.30), so it is modelled as a stable merge sort with
the descending-similarity comparator. -/
noncomputable def ranked (db : List BrandVoiceEmbedding)
    (queryEmbedding : List ℝ) (minSimilarity : ℝ)
    (source : Option BrandVoiceSource) : List ScoredBrandVoice :=
  (aboveMin db queryEmbedding minSimilarity source).mergeSort simDescLe

/-- `findSimilarBrandVoice(queryEmbedding, limit, minSimilarity, source?)` of
brand-voice.ts: fetch (optionally source-filtered), score every candidate,
drop those below `minSimilarity`, sort by descending similarity, truncate to
`limit`. -/
noncomputable def findSimilarBrandVoice (db : List BrandVoiceEmbedding)
    (queryEmbedding : List ℝ) (limit : Nat) (minSimilarity : ℝ)
    (source : Option BrandVoiceSource) : List ScoredBrandVoice :=
  (ranked db queryEmbedding minSimilarity source).take limit

end BrandVoice

namespace RAG

/-- `BrandVoiceContext` of brand-voice-rag.ts. -/
structure BrandVoiceContext where
  text : String
  source : BrandVoiceSource
  sourceFile : Option String
  similarity : ℝ
  metadata : Option String

/-- `RAGOptions`; `none` fields are JavaScript `undefined` and fall back to
`DEFAULT_OPTIONS` (`topK = 5`, `minSimilarity = 0.7`,
`includeMetadata = true`; `sources` has no default). -/
structure RAGOptions where
  topK : Option Nat
  minSimilarity : Option ℝ
  sources : Option (List BrandVoiceSource)
  includeMetadata : Option Bool

/-- `retrieveBrandVoiceContext(query, options)` of brand-voice-rag.ts, with
the query already embedded (`generateEmbedding` is an external provider call,
abstracted as the supplied `queryEmbedding`).  NOTE, faithful to the source:
the merged `opts.sources` is never forwarded — the call is
`findSimilarBrandVoice(queryEmbedding, opts.topK, opts.minSimilarity)` with
the fourth (source filter) argument omitted, so it is passed as `none`
here. -/
noncomputable def retrieveBrandVoiceContext (db : List BrandVoice.BrandVoiceEmbedding)
    (queryEmbedding : List ℝ) (options : RAGOptions) : List BrandVoiceContext :=
  let topK := options.topK.getD 5
  let minSimilarity := options.minSimilarity.getD 0.7
  let includeMetadata := options.includeMetadata.getD true
  (BrandVoice.findSimilarBrandVoice db queryEmbedding topK minSimilarity none).map
    (fun result =>
      { text := result.item.text
        source := result.item.source
        sourceFile := result.item.source_file
        similarity := result.similarity
        metadata := if includeMetadata then result.item.metadata else none })

/-- `getBrandVoiceGuidelines(contentType, platform?)`: templated query,
`topK = 3`, `minSimilarity = 0.65`, `sources = ['style_guide']`.  `embedOf`
abstracts `generateEmbedding` on the composed query string. -/
noncomputable def getBrandVoiceGuidelines (db : List BrandVoice.BrandVoiceEmbedding)
    (embedOf : String → List ℝ) (contentType : String)
    (platform : Option String) : List BrandVoiceContext :=
  let query :=
    match platform with
    | some p => "Guidelines for " ++ contentType ++ " on " ++ p ++ " social media"
    | none => "Guidelines for " ++ contentType
  retrieveBrandVoiceContext db (embedOf query)
    ⟨some 3, some 0.65, some [BrandVoiceSource.style_guide], none⟩

/-- `getBrandVoiceExamples(topic, postType)`: templated query, `topK = 5`,
`minSimilarity = 0.7`, `sources = ['example_post', 'knowledge_base']`. -/
noncomputable def getBrandVoiceExamples (db : List BrandVoice.BrandVoiceEmbedding)
    (embedOf : String → List ℝ) (topic : String) (postType : String) :
    List BrandVoiceContext :=
  let query := "Example " ++ postType ++ " post about " ++ topic
  retrieveBrandVoiceContext db (embedOf query)
    ⟨some 5, some 0.7,
     some [BrandVoiceSource.example_post, BrandVoiceSource.knowledge_base], none⟩

end RAG

namespace Ingestion

/-- PDF metadata as surfaced by pdf-reader.ts (only the title is read by the
ingestion service). -/
structure PDFMetadataInfo where
  title : Option String
deriving Repr, DecidableEq

/-- `PDFContent` of pdf-reader.ts (the fields the ingestion service reads). -/
structure PDFContent where
  text : List Char
  numPages : Nat
  metadata : Option PDFMetadataInfo
deriving Repr

/-- The metadata object attached to every chunk in step 2 of
`ingestDocument`. -/
structure ChunkSourceMeta where
  fileName : String
  source : BrandVoiceSource
  title : Option String
  numPages : Nat
deriving Repr, DecidableEq

/-- The merged metadata stored with each embedding record in step 4 of
`ingestDocument`. -/
structure RecordMetadata where
  base : ChunkSourceMeta
  chunkIndex : Nat
  model : String
  dimensions : Nat
  estimatedTokens : Nat
deriving Repr, DecidableEq

/-- `InsertBrandVoiceEmbedding` of brand-voice.ts, with vector entries in
`α`. -/
structure InsertRecord (α : Type) where
  source : BrandVoiceSource
  source_file : Option String
  text : String
  embedding : List α
  metadata : Option RecordMetadata
deriving Repr

/-- `IngestionOptions` of brand-voice-ingestion.ts (`source` is required,
the rest optional). -/
structure IngestionOptions where
  chunkSize : Option Nat
  chunkOverlap : Option Nat
  source : BrandVoiceSource
  reIngest : Option Bool
deriving Repr

/-- `Partial<IngestionOptions>` as accepted by `ingestAllDocuments`: every
field optional, including a caller-supplied `source`. -/
structure IngestAllOptions where
  chunkSize : Option Nat
  chunkOverlap : Option Nat
  source : Option BrandVoiceSource
  reIngest : Option Bool
deriving Repr

/-- The per-document stats block of `IngestionResult`. -/
structure IngestionStats where
  pages : Nat
  characters : Nat
  chunks : Nat
  embeddings : Nat
  tokens : Nat
deriving Repr, DecidableEq

/-- All-zero stats, as reported for a failed document. -/
def zeroStats : IngestionStats := ⟨0, 0, 0, 0, 0⟩

/-- `IngestionResult` of brand-voice-ingestion.ts. -/
structure IngestionResult where
  success : Bool
  fileName : String
  source : BrandVoiceSource
  stats : IngestionStats
  errors : List String
deriving Repr

/-- The external collaborators of the ingestion service, as oracles: the file
system check, the delete-by-file store call, the PDF reader, the embedding
provider (consumed through `Embeddings.generateEmbeddingsBatch`) and the bulk
insert store call.  `Except.error` models a thrown exception. -/
structure IngestEnv (α : Type) where
  fileExists : String → Bool
  deleteByFile : String → Except String Nat
  readPDF : String → Except String PDFContent
  provider : List String → Except String (List (List α) × Nat)
  bulkInsert : List (InsertRecord α) → Except String Nat

/-- `path.basename`: the part of the path after the last slash. -/
def basename (p : String) : String :=
  String.mk ((p.data.reverse.takeWhile (fun c => c ≠ '/')).reverse)

/-- `path.join(dir, name)` (no normalisation needed for the paths that
occur here). -/
def pathJoin (dir name : String) : String :=
  dir ++ "/" ++ name

/-- JavaScript `x || d` for an optional numeric option: `undefined` and `0`
both fall back to the default. -/
def orDefault (o : Option Nat) (d : Nat) : Nat :=
  match o with
  | some n => if n = 0 then d else n
  | none => d

/-- Step 4 of `ingestDocument`:
`embeddingsResult.embeddings.map((emb, index) => ...)` pairing each embedding
with `chunks[index]`.  When the provider returned more embeddings than there
are chunks, the source would read `chunks[index].metadata` off `undefined`
and throw a TypeError, which the surrounding catch turns into a failed
result; that is modelled as `none`, turned into the thrown-error branch by
the caller. -/
def buildRecords (source : BrandVoiceSource) (fileName : String) :
    List (Embeddings.EmbeddingResult α) →
    List (TextChunker.TextChunk × ChunkSourceMeta) →
    Option (List (InsertRecord α))
  | [], _ => some []
  | _ :: _, [] => none
  | emb :: rest, (c, m) :: cs =>
    (buildRecords source fileName rest cs).map
      (fun tail =>
        ⟨source, some fileName, emb.text, emb.embedding,
         some ⟨m, c.index, emb.model, emb.dimensions,
               TextChunker.estimateTokenCount emb.text⟩⟩ :: tail)

/-- The try-block of `ingestDocument` (steps: existence check, optional
delete, read, chunk, embed, store).  The outer `Option` is the chunking
fuel: `none` means the chunking loop was still running.  The inner `Except`
is a thrown error, turned into a failed `IngestionResult` by the catch in
`ingestDocument`. -/
def ingestDocumentCore (env : IngestEnv α) (fuel : Nat) (filePath : String)
    (options : IngestionOptions) : Option (Except String IngestionResult) :=
  let fileName := basename filePath
  if ¬ env.fileExists filePath then
    some (.error ("File not found: " ++ filePath))
  else
    match (if options.reIngest.getD false then env.deleteByFile fileName
           else .ok 0) with
    | .error e => some (.error e)
    | .ok _ =>
      match env.readPDF filePath with
      | .error e => some (.error e)
      | .ok pdfContent =>
        match TextChunker.chunkTextWithMetadata fuel pdfContent.text
            (⟨fileName, options.source,
              (pdfContent.metadata.map (fun m => m.title)).join,
              pdfContent.numPages⟩ : ChunkSourceMeta)
            ⟨some (orDefault options.chunkSize 1000),
             some (orDefault options.chunkOverlap 200), none, none⟩ with
        | none => none
        | some chunks =>
          let texts := chunks.map (fun c => String.mk c.1.text)
          match Embeddings.generateEmbeddingsBatch env.provider texts
              "text-embedding-3-small" 100 with
          | .error e => some (.error e)
          | .ok embeddingsResult =>
            match buildRecords options.source fileName
                embeddingsResult.embeddings chunks with
            | none =>
              some (.error "Cannot read properties of undefined")
            | some records =>
              match env.bulkInsert records with
              | .error e => some (.error e)
              | .ok stored =>
                some (.ok
                  { success := true
                    fileName := fileName
                    source := options.source
                    stats :=
                      { pages := pdfContent.numPages
                        characters := pdfContent.text.length
                        chunks := chunks.length
                        embeddings := stored
                        tokens := embeddingsResult.totalTokens }
                    errors := [] })

/-- `ingestDocument(filePath, options)`: the try-block with its catch, which
turns any thrown error into a failed result with all-zero stats and the
error message recorded.  `none` still means the chunking loop never
finished (the source would simply hang). -/
def ingestDocument (env : IngestEnv α) (fuel : Nat) (filePath : String)
    (options : IngestionOptions) : Option IngestionResult :=
  (ingestDocumentCore env fuel filePath options).map
    (fun r =>
      match r with
      | .ok result => result
      | .error msg =>
        { success := false
          fileName := basename filePath
          source := options.source
          stats := zeroStats
          errors := [msg] })

/-- The filename heuristics of `ingestAllDocuments`: `'style'` substring
(case-insensitive) maps to `style_guide`, else `'knowledge'` to
`knowledge_base`, else `other`. -/
def containsSub (hay : List Char) (pat : List Char) : Bool :=
  match hay with
  | [] => TextChunker.beginsWith [] pat
  | c :: t => TextChunker.beginsWith (c :: t) pat || containsSub t pat

/-- Lower-case a string character by character
(`fileName.toLowerCase()`). -/
def toLowerStr (s : String) : String :=
  String.mk (s.data.map Char.toLower)

/-- The inferred source tag for one file name. -/
def inferSource (fileName : String) : BrandVoiceSource :=
  if containsSub (toLowerStr fileName).data "style".data then .style_guide
  else if containsSub (toLowerStr fileName).data "knowledge".data then .knowledge_base
  else .other

/-- The aggregate result of `ingestAllDocuments`. -/
structure IngestAllResult where
  success : Bool
  results : List IngestionResult
  totalStats : IngestionStats
deriving Repr

/-- Field-wise sum of stats (the `results.reduce` accumulator). -/
def addStats (a : IngestionStats) (b : IngestionStats) : IngestionStats :=
  ⟨a.pages + b.pages, a.characters + b.characters, a.chunks + b.chunks,
   a.embeddings + b.embeddings, a.tokens + b.tokens⟩

/-- The `for (const [fileName, _content] of pdfs)` loop of
`ingestAllDocuments`: each document is ingested with `{ ...options, source }`
— note, faithful to the source: the spread puts the inferred `source` AFTER
`...options`, so the inferred tag always replaces a caller-supplied
`options.source`.  Results are pushed in scan order; `none` propagates a
never-terminating chunking loop. -/
def ingestLoop (env : IngestEnv α) (fuel : Nat) (documentsDir : String)
    (options : IngestAllOptions) : List String → Option (List IngestionResult)
  | [] => some []
  | fileName :: rest => do
    let r ← ingestDocument env fuel (pathJoin documentsDir fileName)
      { chunkSize := options.chunkSize
        chunkOverlap := options.chunkOverlap
        source := inferSource fileName
        reIngest := options.reIngest }
    let tail ← ingestLoop env fuel documentsDir options rest
    some (r :: tail)

/-- `ingestAllDocuments(documentsDir, options)`: run the per-document loop
over the scanned PDF names, sum the stats, and report overall `success` as
`results.every(r => r.success)`. -/
def ingestAllDocuments (env : IngestEnv α) (fuel : Nat) (documentsDir : String)
    (pdfNames : List String) (options : IngestAllOptions) :
    Option IngestAllResult :=
  if pdfNames.isEmpty then
    some ⟨true, [], zeroStats⟩
  else
    (ingestLoop env fuel documentsDir options pdfNames).map
      (fun results =>
        { success := results.all (fun r => r.success)
          results := results
          totalStats := results.foldl (fun acc r => addStats acc r.stats) zeroStats })

end Ingestion

namespace Fixtures

/-- A stored record tagged `example_post` whose embedding matches the query
`[1]` exactly. -/
def recEx : BrandVoice.BrandVoiceEmbedding :=
  ⟨"r1", .example_post, none, "sample text", [1], none, 0⟩

/-- Twin records with identical embeddings: same similarity to any query. -/
def recA : BrandVoice.BrandVoiceEmbedding :=
  ⟨"a1", .style_guide, none, "a", [1], none, 0⟩

/-- Second twin of `recA`. -/
def recB : BrandVoice.BrandVoiceEmbedding :=
  ⟨"b1", .style_guide, none, "b", [1], none, 0⟩

/-- The older of two equal-similarity records (`created_at = 0`). -/
def recOld : BrandVoice.BrandVoiceEmbedding :=
  ⟨"old", .style_guide, none, "older text", [1], none, 0⟩

/-- The newer of two equal-similarity records (`created_at = 1`). -/
def recNew : BrandVoice.BrandVoiceEmbedding :=
  ⟨"new", .style_guide, none, "newer text", [1], none, 1⟩

/-- A provider that answers every batch with one empty vector per text and
zero token usage. -/
def okProvider : List String → Except String (List (List Nat) × Nat) :=
  fun b => .ok (b.map (fun _ => []), 0)

/-- An ingestion environment whose file-system check fails for every path:
each `ingestDocument` run throws `File not found` immediately. -/
def missingEnv : Ingestion.IngestEnv Nat :=
  { fileExists := fun _ => false
    deleteByFile := fun _ => .ok 0
    readPDF := fun _ => .error "unused"
    provider := okProvider
    bulkInsert := fun _ => .ok 0 }

/-- The failed result for `documents/missing.pdf` under `missingEnv`. -/
def missingResult : Ingestion.IngestionResult :=
  ⟨false, "missing.pdf", .style_guide, Ingestion.zeroStats,
   ["File not found: documents/missing.pdf"]⟩

/-- Failed result for `a.pdf` in the two-document run. -/
def failedA : Ingestion.IngestionResult :=
  ⟨false, "a.pdf", .other, Ingestion.zeroStats,
   ["File not found: documents/a.pdf"]⟩

/-- Failed result for `style-b.pdf` in the two-document run. -/
def failedB : Ingestion.IngestionResult :=
  ⟨false, "style-b.pdf", .style_guide, Ingestion.zeroStats,
   ["File not found: documents/style-b.pdf"]⟩

/-- The aggregate of the two failed documents. -/
def failedAll : Ingestion.IngestAllResult :=
  ⟨false, [failedA, failedB], Ingestion.zeroStats⟩

/-- The aggregate of the `style`-then-unmatched run. -/
def failedStyled : Ingestion.IngestAllResult :=
  ⟨false, [failedB, failedA], Ingestion.zeroStats⟩

end Fixtures

namespace Ingestion

theorem ingestDocumentCore_ok {α : Type} {env : IngestEnv α} {fuel : Nat}
    {filePath : String} {options : IngestionOptions}
    {result : IngestionResult}
    (h : ingestDocumentCore env fuel filePath options = some (.ok result)) :
    result.success = true ∧ result.source = options.source := by
  unfold ingestDocumentCore at h
  cases hf : env.fileExists filePath with
  | false => rw [hf] at h; simp at h
  | true =>
    rw [hf] at h
    simp only [Bool.true_eq_false, not_false_eq_true, not_true_eq_false,
      if_neg, ite_false, ite_true, reduceIte] at h
    obtain ⟨d, hd⟩ :
        ∃ d, (if options.reIngest.getD false
              then env.deleteByFile (basename filePath)
              else Except.ok 0) = d := ⟨_, rfl⟩
    rw [hd] at h
    cases d with
    | error e => simp at h
    | ok k =>
      dsimp only at h
      cases hp : env.readPDF filePath with
      | error e => rw [hp] at h; simp at h
      | ok pdf =>
        rw [hp] at h
        dsimp only at h
        cases hc : TextChunker.chunkTextWithMetadata fuel pdf.text
            (⟨basename filePath, options.source,
              (pdf.metadata.map (fun m => m.title)).join,
              pdf.numPages⟩ : ChunkSourceMeta)
            ⟨some (orDefault options.chunkSize 1000),
             some (orDefault options.chunkOverlap 200), none, none⟩ with
        | none => rw [hc] at h; simp at h
        | some chunks =>
          rw [hc] at h
          dsimp only at h
          cases hg : Embeddings.generateEmbeddingsBatch env.provider
              (chunks.map (fun c => String.mk c.1.text))
              "text-embedding-3-small" 100 with
          | error e => rw [hg] at h; simp at h
          | ok embRes =>
            rw [hg] at h
            dsimp only at h
            cases hb : buildRecords options.source (basename filePath)
                embRes.embeddings chunks with
            | none => rw [hb] at h; simp at h
            | some records =>
              rw [hb] at h
              dsimp only at h
              cases hi : env.bulkInsert records with
              | error e => rw [hi] at h; simp at h
              | ok stored =>
                rw [hi] at h
                dsimp only at h
                simp only [Option.some.injEq, Except.ok.injEq] at h
                rw [← h]
                exact ⟨rfl, rfl⟩

end Ingestion

theorem ingestDocument_shape {α : Type} {env : Ingestion.IngestEnv α} {fuel : Nat}
    {filePath : String} {options : Ingestion.IngestionOptions}
    {r : Ingestion.IngestionResult}
    (h : Ingestion.ingestDocument env fuel filePath options = some r) :
    r.source = options.source ∧
      (r.success = false → r.stats = Ingestion.zeroStats ∧ r.errors ≠ []) := by
  unfold Ingestion.ingestDocument at h
  cases hc : Ingestion.ingestDocumentCore env fuel filePath options with
  | none => rw [hc] at h; simp at h
  | some e =>
    rw [hc] at h
    cases e with
    | ok result =>
      simp only [Option.map_some', Option.some.injEq] at h
      obtain ⟨h1, h2⟩ := Ingestion.ingestDocumentCore_ok hc
      rw [← h]
      exact ⟨h2, fun hfail => by simp [h1] at hfail⟩
    | error msg =>
      simp only [Option.map_some', Option.some.injEq] at h
      rw [← h]
      exact ⟨rfl, fun _ => ⟨rfl, by simp⟩⟩

theorem ingestLoop_shape {α : Type} {env : Ingestion.IngestEnv α} {fuel : Nat}
    {dir : String} {options : Ingestion.IngestAllOptions} :
    ∀ {names : List String} {rs : List Ingestion.IngestionResult},
    Ingestion.ingestLoop env fuel dir options names = some rs →
    rs.length = names.length ∧
    rs.map (fun r => r.source) = names.map Ingestion.inferSource ∧
    ∀ r ∈ rs, r.success = false → r.stats = Ingestion.zeroStats ∧ r.errors ≠ [] := by
  intro names
  induction names with
  | nil =>
    intro rs h
    simp only [Ingestion.ingestLoop, Option.some.injEq] at h
    subst h
    simp
  | cons n rest ih =>
    intro rs h
    simp only [Ingestion.ingestLoop, Option.bind_eq_bind, Option.bind_eq_some] at h
    obtain ⟨r, hr, tail, htail, hrs⟩ := h
    obtain ⟨hsrc, hfail⟩ := ingestDocument_shape hr
    obtain ⟨ihlen, ihsrc, ihfail⟩ := ih htail
    injection hrs with hrs
    subst hrs
    refine ⟨by simp [ihlen], by simp [hsrc, ihsrc], ?_⟩
    intro x hx hxf
    rcases List.mem_cons.mp hx with hx | hx
    · subst hx; exact hfail hxf
    · exact ihfail x hx hxf

/-- C10: whenever `ingestDocument` completes with `success = false`, all five
stats fields (pages, characters, chunks, embeddings, tokens) are `0` and the
errors list is non-empty: a failed document never reports partial stats. -/
theorem ingestDocument_failure_zero_stats {α : Type} (env : Ingestion.IngestEnv α)
    (fuel : Nat) (filePath : String) (options : Ingestion.IngestionOptions)
    (r : Ingestion.IngestionResult)
    (h : Ingestion.ingestDocument env fuel filePath options = some r)
    (hfail : r.success = false) :
    r.stats.pages = 0 ∧ r.stats.characters = 0 ∧ r.stats.chunks = 0 ∧
      r.stats.embeddings = 0 ∧ r.stats.tokens = 0 ∧ r.errors ≠ [] := by
  obtain ⟨-, hshape⟩ := ingestDocument_shape h
  obtain ⟨hstats, herr⟩ := hshape hfail
  rw [hstats]
  exact ⟨rfl, rfl, rfl, rfl, rfl, herr⟩

/-- Witness for C10: a concrete run against a missing file fails with
all-zero stats and one recorded error string. -/
theorem ingestDocument_failure_zero_stats_witness :
    Ingestion.ingestDocument Fixtures.missingEnv 0 "documents/missing.pdf"
        ⟨none, none, .style_guide, none⟩ = some Fixtures.missingResult ∧
    Fixtures.missingResult.success = false ∧
    Fixtures.missingResult.stats.pages = 0 ∧
      Fixtures.missingResult.stats.characters = 0 ∧
      Fixtures.missingResult.stats.chunks = 0 ∧
      Fixtures.missingResult.stats.embeddings = 0 ∧
      Fixtures.missingResult.stats.tokens = 0 ∧
      Fixtures.missingResult.errors ≠ [] :=
  ⟨rfl, rfl,
   ingestDocument_failure_zero_stats Fixtures.missingEnv 0 "documents/missing.pdf"
     ⟨none, none, .style_guide, none⟩ Fixtures.missingResult rfl rfl⟩

/-- C7: a completed directory ingestion yields one result per scanned
document (a failing document never aborts its siblings or escapes as an
exception), failed documents carry their error recorded as a string, and the
overall success flag is the conjunction of the per-document flags. -/
theorem ingestAllDocuments_fault_isolation {α : Type} (env : Ingestion.IngestEnv α)
    (fuel : Nat) (dir : String) (names : List String)
    (options : Ingestion.IngestAllOptions) (out : Ingestion.IngestAllResult)
    (h : Ingestion.ingestAllDocuments env fuel dir names options = some out) :
    out.results.length = names.length ∧
    out.success = out.results.all (fun r => r.success) ∧
    (∀ r ∈ out.results, r.success = false → r.errors ≠ []) := by
  unfold Ingestion.ingestAllDocuments at h
  by_cases hn : names.isEmpty
  · rw [if_pos hn] at h
    simp only [Option.some.injEq] at h
    rw [← h]
    refine ⟨?_, rfl, by intro r hr; cases hr⟩
    rw [List.isEmpty_iff.mp hn]
    rfl
  · rw [if_neg hn] at h
    cases hl : Ingestion.ingestLoop env fuel dir options names with
    | none => rw [hl] at h; simp at h
    | some rs =>
      rw [hl] at h
      simp only [Option.map_some', Option.some.injEq] at h
      obtain ⟨hlen, -, hfails⟩ := ingestLoop_shape hl
      rw [← h]
      exact ⟨hlen, rfl, fun r hr hf => (hfails r hr hf).2⟩

/-- Witness for C7: a concrete two-document run in which both documents fail
on the existence check; both results are present, each records its error,
and the overall success flag is false. -/
theorem ingestAllDocuments_fault_isolation_witness :
    Ingestion.ingestAllDocuments Fixtures.missingEnv 0 "documents"
        ["a.pdf", "style-b.pdf"] ⟨none, none, none, none⟩ =
      some Fixtures.failedAll ∧
    Fixtures.failedAll.results.length = 2 ∧
    Fixtures.failedAll.success =
      Fixtures.failedAll.results.all (fun r => r.success) ∧
    (∀ r ∈ Fixtures.failedAll.results, r.success = false → r.errors ≠ []) :=
  ⟨rfl,
   (ingestAllDocuments_fault_isolation Fixtures.missingEnv 0 "documents"
     ["a.pdf", "style-b.pdf"] ⟨none, none, none, none⟩ Fixtures.failedAll rfl).1,
   (ingestAllDocuments_fault_isolation Fixtures.missingEnv 0 "documents"
     ["a.pdf", "style-b.pdf"] ⟨none, none, none, none⟩ Fixtures.failedAll rfl).2.1,
   (ingestAllDocuments_fault_isolation Fixtures.missingEnv 0 "documents"
     ["a.pdf", "style-b.pdf"] ⟨none, none, none, none⟩ Fixtures.failedAll rfl).2.2⟩

/-- C9 counterexample: the claim says a caller-supplied `sourceTag` overrides
the filename inference; in the code the spread `{ ...options, source }` puts
the inferred tag after the options, so a caller-supplied `feedback` tag is
ignored and the unmatched file `a.pdf` is ingested as `other`. -/
theorem ingestAll_source_override_cex :
    (Ingestion.ingestAllDocuments Fixtures.missingEnv 0 "documents" ["a.pdf"]
        ⟨none, none, some .feedback, none⟩).map
      (fun out => out.results.map (fun r => r.source)) =
      some [BrandVoiceSource.other] := rfl

/-- C9 amended: each ingested document's source tag is exactly the one
inferred from its filename (`style` substring ↦ style_guide, `knowledge` ↦
knowledge_base, otherwise `other`); the inferred tag is applied regardless of
any caller-supplied `sourceTag` in the options. -/
theorem ingestAll_source_always_inferred {α : Type} (env : Ingestion.IngestEnv α)
    (fuel : Nat) (dir : String) (names : List String)
    (options : Ingestion.IngestAllOptions) (out : Ingestion.IngestAllResult)
    (h : Ingestion.ingestAllDocuments env fuel dir names options = some out) :
    out.results.map (fun r => r.source) = names.map Ingestion.inferSource := by
  unfold Ingestion.ingestAllDocuments at h
  by_cases hn : names.isEmpty
  · rw [if_pos hn] at h
    simp only [Option.some.injEq] at h
    rw [← h, List.isEmpty_iff.mp hn]
    rfl
  · rw [if_neg hn] at h
    cases hl : Ingestion.ingestLoop env fuel dir options names with
    | none => rw [hl] at h; simp at h
    | some rs =>
      rw [hl] at h
      simp only [Option.map_some', Option.some.injEq] at h
      rw [← h]
      exact (ingestLoop_shape hl).2.1

/-- Witness for C9 amended: a concrete run over a `style` file and an
unmatched file, with a caller-supplied `feedback` tag; the results carry
`style_guide` and `other`. -/
theorem ingestAll_source_always_inferred_witness :
    Ingestion.ingestAllDocuments Fixtures.missingEnv 0 "documents"
        ["style-b.pdf", "a.pdf"] ⟨none, none, some .feedback, none⟩ =
      some Fixtures.failedStyled ∧
    Fixtures.failedStyled.results.map (fun r => r.source) =
      [BrandVoiceSource.style_guide, BrandVoiceSource.other] :=
  ⟨rfl, by
    have h := ingestAll_source_always_inferred Fixtures.missingEnv 0 "documents"
      ["style-b.pdf", "a.pdf"] ⟨none, none, some .feedback, none⟩
      Fixtures.failedStyled rfl
    simpa using h⟩

namespace Embeddings

theorem pairEmb_texts {α : Type} (mn : String) :
    ∀ (d : List (List α)) (b : List String), d.length = b.length →
      (pairEmb mn d b).map (fun e => e.text) = b := by
  intro d
  induction d with
  | nil =>
    intro b hb
    cases b with
    | nil => rfl
    | cons x xs => simp at hb
  | cons v vs ih =>
    intro b hb
    cases b with
    | nil => simp at hb
    | cons x xs =>
      simp only [pairEmb, List.map_cons]
      rw [ih xs (by simpa using hb)]

theorem ceilDiv_step (m bs : Nat) (hbs : 0 < bs) (hm : 0 < m) :
    (m + bs - 1) / bs = 1 + (m - bs + bs - 1) / bs := by
  rcases Nat.le_total m bs with h | h
  · have h0 : m - bs = 0 := by omega
    have hL : (m + bs - 1) / bs = 1 := by
      have h2 : m + bs - 1 = (m - 1) + bs := by omega
      rw [h2, Nat.add_div_right _ hbs, Nat.div_eq_of_lt (by omega)]
    have hR : (m - bs + bs - 1) / bs = 0 := by
      rw [h0, Nat.zero_add]
      exact Nat.div_eq_of_lt (by omega)
    rw [hL, hR]
  · have h1 : m - bs + bs - 1 = m - 1 := by omega
    have h2 : m + bs - 1 = (m - 1) + bs := by omega
    rw [h1, h2, Nat.add_div_right _ hbs, Nat.add_comm]

theorem toBatches_length_aux (bs : Nat) (hbs : 0 < bs) :
    ∀ (n : Nat) (l : List String), l.length ≤ n →
      (toBatches bs l).length = (l.length + bs - 1) / bs := by
  intro n
  induction n with
  | zero =>
    intro l hl
    have h0 : l = [] := List.eq_nil_of_length_eq_zero (by omega)
    subst h0
    simp only [toBatches, List.length_nil, Nat.zero_add]
    exact (Nat.div_eq_of_lt (by omega)).symm
  | succ n ih =>
    intro l hl
    cases l with
    | nil =>
      simp only [toBatches, List.length_nil, Nat.zero_add]
      exact (Nat.div_eq_of_lt (by omega)).symm
    | cons t ts =>
      rw [toBatches, if_neg (Nat.pos_iff_ne_zero.mp hbs)]
      rw [List.length_cons]
      have hdl : ((t :: ts).drop bs).length ≤ n := by
        rw [List.length_drop, List.length_cons]
        simp only [List.length_cons] at hl
        omega
      rw [ih _ hdl, List.length_drop, List.length_cons,
        ceilDiv_step (ts.length + 1) bs hbs (by omega)]
      omega

theorem toBatches_length (bs : Nat) (hbs : 0 < bs) (l : List String) :
    (toBatches bs l).length = (l.length + bs - 1) / bs :=
  toBatches_length_aux bs hbs l.length l le_rfl

theorem runBatches_toBatches {α : Type}
    (provider : List String → Except String (List (List α) × Nat))
    (mn : String) (bs : Nat) (hbs : 0 < bs)
    (hp : ∀ b, ∃ d t, provider b = .ok (d, t) ∧ d.length = b.length) :
    ∀ (n : Nat) (l : List String), l.length ≤ n →
      ∃ embs tok, runBatches provider mn (toBatches bs l) = .ok (embs, tok) ∧
        embs.map (fun e => e.text) = l := by
  intro n
  induction n with
  | zero =>
    intro l hl
    have h0 : l = [] := List.eq_nil_of_length_eq_zero (by omega)
    subst h0
    exact ⟨[], 0, by simp [toBatches, runBatches], rfl⟩
  | succ n ih =>
    intro l hl
    cases l with
    | nil => exact ⟨[], 0, by simp [toBatches, runBatches], rfl⟩
    | cons t ts =>
      rw [toBatches, if_neg (Nat.pos_iff_ne_zero.mp hbs)]
      obtain ⟨d, tok, hpd, hlen⟩ := hp ((t :: ts).take bs)
      have hdl : ((t :: ts).drop bs).length ≤ n := by
        rw [List.length_drop, List.length_cons]
        simp only [List.length_cons] at hl
        omega
      obtain ⟨embs, tok2, hrun, htexts⟩ := ih ((t :: ts).drop bs) hdl
      refine ⟨pairEmb mn d ((t :: ts).take bs) ++ embs, tok + tok2, ?_, ?_⟩
      · simp only [runBatches, hpd, hrun, bind, Except.bind]
      · rw [List.map_append,
          pairEmb_texts mn d _ (by rw [hlen]),
          htexts, List.take_append_drop]

end Embeddings

/-- C6: with a positive batch size and a provider answering one vector per
input, `generateEmbeddingsBatch` issues exactly `⌈n / batchSize⌉` provider
calls (one per batch cut by the slicing loop) and succeeds with one embedding
per input text, in the original input order. -/
theorem generateEmbeddingsBatch_calls_order {α : Type}
    (provider : List String → Except String (List (List α) × Nat))
    (texts : List String) (modelName : String) (batchSize : Nat)
    (hbs : 0 < batchSize)
    (hp : ∀ b, ∃ d t, provider b = .ok (d, t) ∧ d.length = b.length) :
    (Embeddings.toBatches batchSize texts).length =
      (texts.length + batchSize - 1) / batchSize ∧
    ∃ r, Embeddings.generateEmbeddingsBatch provider texts modelName batchSize =
        .ok r ∧
      r.embeddings.map (fun e => e.text) = texts := by
  refine ⟨Embeddings.toBatches_length batchSize hbs texts, ?_⟩
  obtain ⟨embs, tok, hrun, htexts⟩ :=
    Embeddings.runBatches_toBatches provider modelName batchSize hbs hp
      texts.length texts le_rfl
  exact ⟨⟨embs, tok, modelName⟩,
    by simp only [Embeddings.generateEmbeddingsBatch, hrun]; rfl, htexts⟩

/-- Witness for C6: `batchSize = 2` over 5 texts issues exactly 3 provider
calls and returns 5 vectors in input order. -/
theorem generateEmbeddingsBatch_calls_order_witness :
    (Embeddings.toBatches 2 ["t1", "t2", "t3", "t4", "t5"]).length = 3 ∧
    ∃ r, Embeddings.generateEmbeddingsBatch Fixtures.okProvider
        ["t1", "t2", "t3", "t4", "t5"] "text-embedding-3-small" 2 = .ok r ∧
      r.embeddings.map (fun e => e.text) = ["t1", "t2", "t3", "t4", "t5"] := by
  have h := generateEmbeddingsBatch_calls_order Fixtures.okProvider
    ["t1", "t2", "t3", "t4", "t5"] "text-embedding-3-small" 2 (by decide)
    (fun b => ⟨b.map (fun _ => []), 0, rfl, by simp⟩)
  exact ⟨by rw [h.1]; rfl, h.2⟩

namespace TextChunker

theorem chunkLoop_stuck : ∀ fuel : Nat,
    chunkLoop ".\nbb".data 2 1 defaultSeparators fuel 1 1 [stuckChunk] = none := by
  intro fuel
  induction fuel with
  | zero => rfl
  | succ f ih =>
    have hstep :
        chunkLoop ".\nbb".data 2 1 defaultSeparators (f + 1) 1 1 [stuckChunk] =
          chunkLoop ".\nbb".data 2 1 defaultSeparators f 1 1 [stuckChunk] := rfl
    rw [hstep, ih]

end TextChunker

/-- C8 (code bug): the claim — and the source comment "Make sure we're making
progress" — promise strictly increasing cursor progress and termination in at
most `⌈len/(size−overlap)⌉` iterations whenever `overlap < size`.  On the
non-empty input ".\nbb" with `chunkSize = 2`, `chunkOverlap = 1` the loop
diverges: the first iteration stores the chunk "." (start 0) and moves the
cursor to 1; every following iteration cuts just after the '\n' separator,
trims the chunk "\n" to empty (so nothing is stored), resets the cursor to
`2 − 1 = 1`, and the progress guard compares 1 against the stale start
position 0 of the first stored chunk — the cursor never advances, and the
loop never terminates for any iteration budget. -/
theorem chunkText_progress_guard_divergence : ∀ fuel : Nat,
    TextChunker.chunkText fuel ".\nbb".data ⟨some 2, some 1, none, none⟩ = none := by
  intro fuel
  cases fuel with
  | zero => rfl
  | succ f =>
    have hstep :
        TextChunker.chunkText (f + 1) ".\nbb".data ⟨some 2, some 1, none, none⟩ =
          TextChunker.chunkLoop ".\nbb".data 2 1 TextChunker.defaultSeparators f
            1 1 [TextChunker.stuckChunk] := rfl
    rw [hstep, TextChunker.chunkLoop_stuck]

/-- C3 counterexample: the claim says a configuration with
`overlap ≥ chunkSize` is rejected with an error before processing, producing
no chunks.  The source has no such validation: on "abcd" with `chunkSize = 2`
and `chunkOverlap = 3` the loop runs and returns the chunks "ab" and "cd"
(the progress guard forces the cursor to each cut end). -/
theorem chunkText_overlap_not_rejected_cex :
    TextChunker.chunkText 10 "abcd".data ⟨some 2, some 3, none, none⟩ =
      some [⟨"ab".data, 0, 0, 2⟩, ⟨"cd".data, 1, 2, 4⟩] := by decide

namespace TextChunker

theorem replaceCRLF_no_cr : ∀ l : List Char, '\r' ∉ l → replaceCRLF l = l := by
  intro l
  induction l with
  | nil => intro _; rfl
  | cons c rest ih =>
    intro h
    have hc : c ≠ '\r' := fun hc => h (hc ▸ List.mem_cons_self c rest)
    have hrest : '\r' ∉ rest := fun hr => h (List.mem_cons_of_mem c hr)
    cases rest with
    | nil => rfl
    | cons d rest2 =>
      rw [replaceCRLF, if_neg (by simp [hc]), ih hrest]

theorem collapseNLAux_no_nl : ∀ l : List Char, '\n' ∉ l → collapseNLAux 0 l = l := by
  intro l
  induction l with
  | nil => intro _; rfl
  | cons c rest ih =>
    intro h
    have hc : c ≠ '\n' := fun hc => h (hc ▸ List.mem_cons_self c rest)
    have hrest : '\n' ∉ rest := fun hr => h (List.mem_cons_of_mem c hr)
    rw [collapseNLAux, if_neg (by simp [hc]), ih hrest]
    rfl

theorem collapseSPAux_no_sp : ∀ l : List Char,
    (∀ c ∈ l, c ≠ ' ' ∧ c ≠ '\t') → collapseSPAux 0 l = l := by
  intro l
  induction l with
  | nil => intro _; rfl
  | cons c rest ih =>
    intro h
    obtain ⟨h1, h2⟩ := h c (List.mem_cons_self c rest)
    rw [collapseSPAux, if_neg (by simp [h1, h2]),
      ih (fun d hd => h d (List.mem_cons_of_mem c hd))]
    rfl

theorem trimJS_no_ws : ∀ l : List Char, (∀ c ∈ l, isWS c = false) → trimJS l = l := by
  intro l h
  unfold trimJS
  have h1 : List.dropWhile isWS l = l := by
    rw [List.dropWhile_eq_self_iff]
    intro hne
    simp only [List.get_eq_getElem, Bool.not_eq_true]
    exact h _ (List.getElem_mem _)
  rw [h1]
  have h2 : List.dropWhile isWS l.reverse = l.reverse := by
    rw [List.dropWhile_eq_self_iff]
    intro hne
    simp only [List.get_eq_getElem, List.getElem_reverse, Bool.not_eq_true]
    exact h _ (List.getElem_mem _)
  rw [h2, List.reverse_reverse]

theorem isWS_a : isWS 'a' = false := rfl

theorem normalizeText_replicate (n : Nat) :
    normalizeText (List.replicate n 'a') = List.replicate n 'a' := by
  unfold normalizeText collapseSpaces collapseNewlines
  rw [replaceCRLF_no_cr _ (by simp [List.mem_replicate]),
    collapseNLAux_no_nl _ (by simp [List.mem_replicate]),
    collapseSPAux_no_sp _ (by intro c hc; rw [List.eq_of_mem_replicate hc]; simp),
    trimJS_no_ws _ (by intro c hc; rw [List.eq_of_mem_replicate hc]; rfl)]

theorem substringJS_replicate (n : Nat) (a b : Int) :
    ∃ k, substringJS (List.replicate n 'a') a b = List.replicate k 'a' := by
  unfold substringJS
  dsimp only
  rw [List.take_replicate, List.drop_replicate]
  exact ⟨_, rfl⟩

theorem beginsWith_replicate_sep (m : Nat) (sep : List Char)
    (hsep : sep ∈ defaultSeparators) :
    beginsWith (List.replicate m 'a') sep = false := by
  fin_cases hsep <;> cases m <;> simp [beginsWith, List.replicate_succ]

theorem lastIndexOfAux_replicate (m : Nat) (sep : List Char)
    (hsep : sep ∈ defaultSeparators) :
    ∀ i : Nat, lastIndexOfAux (List.replicate m 'a') sep i = -1 := by
  intro i
  induction i with
  | zero =>
    rw [lastIndexOfAux, if_neg]
    simp [beginsWith_replicate_sep m sep hsep]
  | succ j ih =>
    rw [lastIndexOfAux, if_neg, ih]
    rw [List.drop_replicate]
    simp [beginsWith_replicate_sep _ sep hsep]

theorem findSplit_replicate (n : Nat) (s e : Int) :
    findSplit (List.replicate n 'a') s e defaultSeparators = none := by
  have key : ∀ seps : List (List Char), (∀ sep ∈ seps, sep ∈ defaultSeparators) →
      findSplit (List.replicate n 'a') s e seps = none := by
    intro seps
    induction seps with
    | nil => intro _; rfl
    | cons sep rest ih =>
      intro hmem
      rw [findSplit]
      obtain ⟨k, hk⟩ := substringJS_replicate n (max s (e - 200))
        (min (e + 100) ((List.replicate n 'a').length : Int))
      rw [hk]
      rw [if_neg, ih (fun x hx => hmem x (List.mem_cons_of_mem sep hx))]
      unfold lastIndexOf
      rw [lastIndexOfAux_replicate k sep (hmem sep (List.mem_cons_self sep rest))]
      simp
  exact key defaultSeparators (fun _ h => h)

theorem trimJS_replicate (k : Nat) :
    trimJS (List.replicate k 'a') = List.replicate k 'a' :=
  trimJS_no_ws _ (by intro c hc; rw [List.eq_of_mem_replicate hc]; rfl)

theorem substringJS_replicate_exact (n : Nat) (s e : Int)
    (hs : 0 ≤ s) (hse : s ≤ e) (he : e ≤ (n : Int)) :
    substringJS (List.replicate n 'a') s e = List.replicate (e - s).toNat 'a' := by
  unfold substringJS
  dsimp only
  rw [List.length_replicate, List.take_replicate, List.drop_replicate]
  congr 1
  omega

theorem chunkLoop_replicate_step (n C O : Nat) (hC : 0 < C) (hCO : C ≤ O)
    (f idx : Nat) (chunks : List TextChunk) (s : Nat) (hs : s < n) :
    chunkLoop (List.replicate n 'a') C O defaultSeparators (f + 1) (s : Int)
        idx chunks =
      chunkLoop (List.replicate n 'a') C O defaultSeparators f
        ((min (s + C) n : Nat) : Int) (idx + 1)
        (chunks ++ [⟨List.replicate (min (s + C) n - s) 'a', idx, (s : Int),
          ((min (s + C) n : Nat) : Int)⟩]) := by
  rw [chunkLoop]
  rw [if_pos (by rw [List.length_replicate]; exact_mod_cast hs)]
  dsimp only
  rw [List.length_replicate, findSplit_replicate]
  dsimp only
  rw [ite_self]
  have hcast : min ((s : Int) + (C : Int)) (n : Int) = ((min (s + C) n : Nat) : Int) := by
    rw [Nat.cast_min]
    push_cast
    rfl
  rw [hcast]
  rw [substringJS_replicate_exact n (s : Int) ((min (s + C) n : Nat) : Int)
    (by positivity) (by push_cast; omega) (by push_cast; omega)]
  have htn : ((((min (s + C) n : Nat) : Int)) - (s : Int)).toNat = min (s + C) n - s := by
    omega
  rw [htn, trimJS_replicate]
  rw [if_pos (by rw [List.length_replicate]; omega)]
  rw [List.getLast?_concat]
  dsimp only
  rw [if_pos (by push_cast; omega)]
  rw [if_pos (by rw [List.length_replicate]; omega)]

theorem chunkLoop_replicate (n C O : Nat) (hC : 0 < C) (hCO : C ≤ O) :
    ∀ (fuel s idx : Nat) (chunks : List TextChunk), s < n →
      (n - s + C - 1) / C ≤ fuel →
      ∃ added,
        chunkLoop (List.replicate n 'a') C O defaultSeparators fuel (s : Int)
            idx chunks = some (chunks ++ added) ∧
        added.length = (n - s + C - 1) / C := by
  intro fuel
  induction fuel with
  | zero =>
    intro s idx chunks hs hfuel
    exfalso
    have h1 : 1 ≤ (n - s + C - 1) / C := by
      rw [Nat.le_div_iff_mul_le hC]
      omega
    omega
  | succ f ih =>
    intro s idx chunks hs hfuel
    rw [chunkLoop_replicate_step n C O hC hCO f idx chunks s hs]
    by_cases hend : n ≤ s + C
    · have hmin : min (s + C) n = n := by omega
      rw [hmin, chunkLoop.eq_def]
      dsimp only
      rw [if_neg (by rw [List.length_replicate]; omega)]
      refine ⟨[⟨List.replicate (n - s) 'a', idx, (s : Int), (n : Int)⟩], rfl, ?_⟩
      have hceil := Embeddings.ceilDiv_step (n - s) C hC (by omega)
      have h0 : n - s - C = 0 := by omega
      rw [List.length_singleton, hceil, h0, Nat.zero_add,
        Nat.div_eq_of_lt (by omega)]
    · have hmin : min (s + C) n = s + C := by omega
      rw [hmin]
      have hfuel' : (n - (s + C) + C - 1) / C ≤ f := by
        have hceil := Embeddings.ceilDiv_step (n - s) C hC (by omega)
        have h0 : n - s - C = n - (s + C) := by omega
        rw [hceil, h0] at hfuel
        omega
      obtain ⟨added, hrun, hlen⟩ := ih (s + C) (idx + 1)
        (chunks ++ [⟨List.replicate (s + C - s) 'a', idx, (s : Int),
          ((s + C : Nat) : Int)⟩]) (by omega) hfuel'
      refine ⟨⟨List.replicate (s + C - s) 'a', idx, (s : Int),
          ((s + C : Nat) : Int)⟩ :: added, ?_, ?_⟩
      · rw [hrun, List.append_assoc]
        rfl
      · have hceil := Embeddings.ceilDiv_step (n - s) C hC (by omega)
        have h0 : n - s - C = n - (s + C) := by omega
        rw [List.length_cons, hlen, hceil, h0]
        omega

end TextChunker

/-- C3 amended: a configuration with `overlap ≥ chunkSize` is NOT rejected —
`chunkText` has no validation at all (no error exists anywhere in the
function) and simply runs the normal chunking loop, which can still produce
chunks.  Proved for the family of texts made of `n` copies of 'a': for every
`n ≥ 1`, `size ≥ 1` and `overlap ≥ size`, chunking that text terminates
(within `n` iterations) and produces `⌈n / size⌉` chunks rather than an
error; there every iteration stores a chunk, so the progress guard forces
the cursor to each cut end.  (On texts whose skipped, whitespace-only chunks
leave the guard comparing a stale start the loop need not terminate at all —
see the C8 divergence — so no stronger termination statement is claimed.) -/
theorem chunkText_overlap_ge_size_amended (n C O : Nat) (hn : 0 < n)
    (hC : 0 < C) (hCO : C ≤ O) :
    ∃ l, TextChunker.chunkText n (List.replicate n 'a')
        ⟨some C, some O, none, none⟩ = some l ∧
      l.length = (n + C - 1) / C ∧ l ≠ [] := by
  unfold TextChunker.chunkText
  simp only [Option.getD_some, Option.getD_none, Bool.false_eq_true, if_false,
    ite_false]
  rw [TextChunker.normalizeText_replicate, List.length_replicate,
    if_neg (by omega)]
  have hfuel : (n - 0 + C - 1) / C ≤ n := by
    rw [Nat.div_le_iff_le_mul_add_pred hC]
    have := Nat.le_mul_of_pos_left n hC
    omega
  obtain ⟨added, hrun, hlen⟩ :=
    TextChunker.chunkLoop_replicate n C O hC hCO n 0 0 [] hn hfuel
  refine ⟨added, ?_, ?_, ?_⟩
  · simpa using hrun
  · rw [hlen, Nat.sub_zero]
  · have h1 : 1 ≤ (n - 0 + C - 1) / C := by
      rw [Nat.le_div_iff_mul_le hC]
      omega
    intro hnil
    rw [hnil] at hlen
    simp only [List.length_nil] at hlen
    omega

/-- Witness for C3 amended: 4 characters, `size = 2`, `overlap = 3`: two
chunks are produced, no error. -/
theorem chunkText_overlap_ge_size_amended_witness :
    ∃ l, TextChunker.chunkText 4 (List.replicate 4 'a')
        ⟨some 2, some 3, none, none⟩ = some l ∧
      l.length = 2 ∧ l ≠ [] := by
  obtain ⟨l, h1, h2, h3⟩ :=
    chunkText_overlap_ge_size_amended 4 2 3 (by decide) (by decide) (by decide)
  exact ⟨l, h1, h2, h3⟩

/-- C2 counterexample: the claim says `cosineSimilarity` returns exactly `0`
and does not raise an error on mismatched dimensions; the embeddings.ts
implementation (unlike the brand-voice.ts copy) THROWS on a dimension
mismatch. -/
theorem cosineSimilarity_mismatch_throws_cex :
    Embeddings.cosineSimilarity [1] [1, 0] =
      .error "Embeddings must have the same dimensions" := by
  unfold Embeddings.cosineSimilarity
  rw [if_pos (by decide)]

/-- C2 amended: the store-side `cosineSimilarity` (brand-voice.ts) returns
exactly `0` on a dimension mismatch or a zero magnitude; the embeddings.ts
`cosineSimilarity` returns `0` on a zero magnitude of same-length vectors but
THROWS (`Embeddings must have the same dimensions`) on a mismatch.  The
magnitude of `v` is `Real.sqrt (sumSq v)`, which is `0` exactly for the zero
vector. -/
theorem cosineSimilarity_degeneracy_amended (a b : List ℝ) :
    ((a.length ≠ b.length ∨ Real.sqrt (Embeddings.sumSq a) = 0 ∨
        Real.sqrt (Embeddings.sumSq b) = 0) →
      BrandVoice.cosineSimilarity a b = 0) ∧
    (a.length = b.length →
      (Real.sqrt (Embeddings.sumSq a) = 0 ∨ Real.sqrt (Embeddings.sumSq b) = 0) →
      Embeddings.cosineSimilarity a b = .ok 0) ∧
    (a.length ≠ b.length →
      Embeddings.cosineSimilarity a b =
        .error "Embeddings must have the same dimensions") := by
  refine ⟨?_, ?_, ?_⟩
  · intro h
    unfold BrandVoice.cosineSimilarity
    by_cases hlen : a.length ≠ b.length
    · rw [if_pos hlen]
    · rw [if_neg hlen]
      dsimp only
      rw [if_pos]
      rcases h with h | h
      · exact absurd h hlen
      · exact h
  · intro hlen h
    unfold Embeddings.cosineSimilarity
    rw [if_neg (by simpa using hlen)]
    dsimp only
    rw [if_pos h]
  · intro hlen
    unfold Embeddings.cosineSimilarity
    rw [if_pos hlen]

/-- Witness for C2 amended: concrete degenerate inputs — a mismatched pair
under the store version (`0`), a zero vector under the embeddings version
(`ok 0`), and a mismatched pair under the embeddings version (throws). -/
theorem cosineSimilarity_degeneracy_amended_witness :
    BrandVoice.cosineSimilarity [0] [0, 1] = 0 ∧
    Embeddings.cosineSimilarity [(0 : ℝ)] [0] = .ok 0 ∧
    Embeddings.cosineSimilarity [(1 : ℝ)] [1, 0] =
      .error "Embeddings must have the same dimensions" :=
  ⟨(cosineSimilarity_degeneracy_amended [0] [0, 1]).1 (Or.inl (by decide)),
   (cosineSimilarity_degeneracy_amended [0] [0]).2.1 rfl
     (Or.inl (by simp [Embeddings.sumSq])),
   (cosineSimilarity_degeneracy_amended [1] [1, 0]).2.2 (by decide)⟩

namespace BrandVoice

theorem cosSim_one : cosineSimilarity [(1 : ℝ)] [1] = 1 := by
  unfold cosineSimilarity
  rw [if_neg (by decide)]
  dsimp only
  have hs : Embeddings.sumSq [(1 : ℝ)] = 1 := by
    simp [Embeddings.sumSq]
  rw [hs, Real.sqrt_one, if_neg (by norm_num)]
  have hd : Embeddings.dotProduct [(1 : ℝ)] [1] = 1 := by
    simp [Embeddings.dotProduct]
  rw [hd]
  norm_num

theorem simDescLe_trans : ∀ a b c : ScoredBrandVoice,
    simDescLe a b = true → simDescLe b c = true → simDescLe a c = true := by
  intro a b c hab hbc
  unfold simDescLe at *
  rw [decide_eq_true_eq] at *
  exact le_trans hbc hab

theorem simDescLe_total : ∀ a b : ScoredBrandVoice,
    (simDescLe a b || simDescLe b a) = true := by
  intro a b
  unfold simDescLe
  rcases le_total a.similarity b.similarity with h | h
  · rw [decide_eq_true h, Bool.or_true]
  · rw [decide_eq_true h, Bool.true_or]

theorem findSimilar_eval_one (r : BrandVoiceEmbedding)
    (h : r.embedding = [1]) (minSim : ℝ) (hm : minSim ≤ 1) (limit : Nat)
    (hl : 1 ≤ limit) :
    findSimilarBrandVoice [r] [1] limit minSim none = [⟨r, 1⟩] := by
  unfold findSimilarBrandVoice ranked aboveMin scored candidates
  simp only [List.map_cons, List.map_nil, h, cosSim_one]
  simp only [List.filter_cons, List.filter_nil, decide_eq_true hm, if_true,
    ite_true, eq_self_iff_true]
  rw [List.mergeSort_singleton]
  exact List.take_of_length_le (by simpa using hl)

theorem findSimilar_eval_two (r1 r2 : BrandVoiceEmbedding)
    (h1 : r1.embedding = [1]) (h2 : r2.embedding = [1]) (minSim : ℝ)
    (hm : minSim ≤ 1) (limit : Nat) (hl : 2 ≤ limit) :
    findSimilarBrandVoice [r1, r2] [1] limit minSim none =
      [⟨r1, 1⟩, ⟨r2, 1⟩] := by
  unfold findSimilarBrandVoice ranked aboveMin scored candidates
  simp only [List.map_cons, List.map_nil, h1, h2, cosSim_one]
  simp only [List.filter_cons, List.filter_nil, decide_eq_true hm, if_true,
    ite_true, eq_self_iff_true]
  rw [List.mergeSort_of_sorted]
  · exact List.take_of_length_le (by simpa using hl)
  · rw [List.pairwise_cons]
    refine ⟨?_, List.pairwise_singleton _ _⟩
    intro x hx
    rw [List.mem_singleton] at hx
    subst hx
    exact decide_eq_true le_rfl

end BrandVoice

/-- C4 counterexample: with two candidates tied at similarity 1 the result of
`findSimilarBrandVoice` is `[1, 1]`-scored — sorted, but not STRICTLY
descending as the claim states. -/
theorem findSimilar_not_strictly_sorted_cex :
    (BrandVoice.findSimilarBrandVoice [Fixtures.recA, Fixtures.recB] [1] 5
        0 none).map (fun r => r.similarity) = [1, 1] ∧
    ¬ List.Pairwise (fun x y : BrandVoice.ScoredBrandVoice =>
        y.similarity < x.similarity)
      (BrandVoice.findSimilarBrandVoice [Fixtures.recA, Fixtures.recB] [1] 5
        0 none) := by
  rw [BrandVoice.findSimilar_eval_two Fixtures.recA Fixtures.recB rfl rfl 0
    (by norm_num) 5 (by norm_num)]
  refine ⟨rfl, ?_⟩
  rw [List.pairwise_cons]
  rintro ⟨h, -⟩
  have := h ⟨Fixtures.recB, 1⟩ (List.mem_singleton_self _)
  exact absurd this (lt_irrefl _)

/-- C4 amended: the result of `findSimilarBrandVoice` is sorted in
non-increasing (weakly descending) order of similarity — ties are allowed —
contains no element below `minSimilarity`, and has length at most `topK`. -/
theorem findSimilar_sorted_filtered_bounded
    (db : List BrandVoice.BrandVoiceEmbedding) (q : List ℝ) (limit : Nat)
    (minSim : ℝ) (source : Option BrandVoiceSource) :
    List.Pairwise (fun x y : BrandVoice.ScoredBrandVoice =>
        y.similarity ≤ x.similarity)
      (BrandVoice.findSimilarBrandVoice db q limit minSim source) ∧
    (∀ r ∈ BrandVoice.findSimilarBrandVoice db q limit minSim source,
      minSim ≤ r.similarity) ∧
    (BrandVoice.findSimilarBrandVoice db q limit minSim source).length ≤
      limit := by
  refine ⟨?_, ?_, ?_⟩
  · have hsorted := List.sorted_mergeSort BrandVoice.simDescLe_trans
      BrandVoice.simDescLe_total (BrandVoice.aboveMin db q minSim source)
    have htake := List.Pairwise.sublist
      (List.take_sublist limit _) hsorted
    refine htake.imp ?_
    intro a b hab
    unfold BrandVoice.simDescLe at hab
    rwa [decide_eq_true_eq] at hab
  · intro r hr
    have hr2 : r ∈ BrandVoice.ranked db q minSim source :=
      (List.take_sublist limit _).subset hr
    have hr3 : r ∈ BrandVoice.aboveMin db q minSim source :=
      List.mem_mergeSort.mp hr2
    have := List.of_mem_filter hr3
    rwa [decide_eq_true_eq] at this
  · rw [BrandVoice.findSimilarBrandVoice, List.length_take]
    exact min_le_left _ _

/-- C5 counterexample: two equal-similarity records whose fetch order is
oldest first; the result keeps the OLDER record (`created_at = 0`) ahead of
the newer one (`created_at = 1`), so ties are not broken by most-recent
`createdAt` first. -/
theorem findSimilar_tie_order_cex :
    (BrandVoice.findSimilarBrandVoice [Fixtures.recOld, Fixtures.recNew] [1]
        5 0 none).map (fun r => r.item.id) = ["old", "new"] ∧
    Fixtures.recOld.created_at < Fixtures.recNew.created_at := by
  rw [BrandVoice.findSimilar_eval_two Fixtures.recOld Fixtures.recNew rfl rfl
    0 (by norm_num) 5 (by norm_num)]
  exact ⟨rfl, by norm_num [Fixtures.recOld, Fixtures.recNew]⟩

/-- C5 amended: the sort applies no `createdAt` tie-break at all — it is a
stable sort on similarity alone, so any two equal-similarity candidates keep
their relative fetch order in the ranking that `findSimilarBrandVoice`
truncates to `topK`. -/
theorem findSimilar_ties_keep_fetch_order
    (db : List BrandVoice.BrandVoiceEmbedding) (q : List ℝ) (minSim : ℝ)
    (source : Option BrandVoiceSource) (a b : BrandVoice.ScoredBrandVoice)
    (hsim : a.similarity = b.similarity)
    (hsub : [a, b].Sublist (BrandVoice.aboveMin db q minSim source)) :
    [a, b].Sublist (BrandVoice.ranked db q minSim source) := by
  apply List.sublist_mergeSort BrandVoice.simDescLe_trans
    BrandVoice.simDescLe_total _ hsub
  rw [List.pairwise_cons]
  refine ⟨?_, List.pairwise_singleton _ _⟩
  intro x hx
  rw [List.mem_singleton] at hx
  subst hx
  unfold BrandVoice.simDescLe
  rw [hsim]
  exact decide_eq_true le_rfl

/-- Witness for C5 amended: the two tied fixture records, in fetch order
oldest first, stay in that order in the ranking. -/
theorem findSimilar_ties_keep_fetch_order_witness :
    (⟨Fixtures.recOld, 1⟩ : BrandVoice.ScoredBrandVoice).similarity =
      (⟨Fixtures.recNew, 1⟩ : BrandVoice.ScoredBrandVoice).similarity ∧
    [(⟨Fixtures.recOld, 1⟩ : BrandVoice.ScoredBrandVoice),
      ⟨Fixtures.recNew, 1⟩].Sublist
      (BrandVoice.aboveMin [Fixtures.recOld, Fixtures.recNew] [1] 0 none) ∧
    [(⟨Fixtures.recOld, 1⟩ : BrandVoice.ScoredBrandVoice),
      ⟨Fixtures.recNew, 1⟩].Sublist
      (BrandVoice.ranked [Fixtures.recOld, Fixtures.recNew] [1] 0 none) := by
  have heval : BrandVoice.aboveMin [Fixtures.recOld, Fixtures.recNew] [1] 0
      none = [⟨Fixtures.recOld, 1⟩, ⟨Fixtures.recNew, 1⟩] := by
    unfold BrandVoice.aboveMin BrandVoice.scored BrandVoice.candidates
    simp only [List.map_cons, List.map_nil,
      show Fixtures.recOld.embedding = [(1 : ℝ)] from rfl,
      show Fixtures.recNew.embedding = [(1 : ℝ)] from rfl,
      BrandVoice.cosSim_one]
    simp only [List.filter_cons, List.filter_nil,
      decide_eq_true (by norm_num : (0 : ℝ) ≤ 1), if_true, ite_true,
      eq_self_iff_true]
  have hsub : [(⟨Fixtures.recOld, 1⟩ : BrandVoice.ScoredBrandVoice),
      ⟨Fixtures.recNew, 1⟩].Sublist
      (BrandVoice.aboveMin [Fixtures.recOld, Fixtures.recNew] [1] 0 none) := by
    rw [heval]
  exact ⟨rfl, hsub,
    findSimilar_ties_keep_fetch_order [Fixtures.recOld, Fixtures.recNew] [1]
      0 none ⟨Fixtures.recOld, 1⟩ ⟨Fixtures.recNew, 1⟩ rfl hsub⟩

/-- C1 (code bug): the guidelines preset restricts `sources` to
`['style_guide']` (and the examples preset to example/knowledge tags), but
`retrieveBrandVoiceContext` never forwards `opts.sources` — it calls
`findSimilarBrandVoice(queryEmbedding, opts.topK, opts.minSimilarity)` with
the fourth (source filter) argument omitted — so the candidate set is the
whole table: with a database holding a single `example_post` record matching
the query exactly, `getBrandVoiceGuidelines` returns that record, violating
the claimed source-tag restriction. -/
theorem guidelines_preset_filter_dropped :
    (RAG.getBrandVoiceGuidelines [Fixtures.recEx] (fun _ => [1]) "blog post"
        (some "LinkedIn")).map (fun c => c.source) =
      [BrandVoiceSource.example_post] := by
  unfold RAG.getBrandVoiceGuidelines RAG.retrieveBrandVoiceContext
  simp only [Option.getD_some, Option.getD_none]
  rw [BrandVoice.findSimilar_eval_one Fixtures.recEx rfl 0.65 (by norm_num) 3
    (by norm_num)]
  rfl
